import Mathlib

/-!
Verification of the SwiftGraphRag core (rag_engine): a shallow embedding of
`store.py` (DuckDBStore), `loader.py` (DocumentIngestor) and `graph.py`
(GraphRAG), together with theorems settling the frozen claims about the
natural-language specification.

Modelling conventions:
* The three DuckDB tables (`chunks`, `nodes`, `edges`) are ordered lists of
  records; SQL `DELETE ... WHERE p` is `List.filter (not p)`, `SELECT ...
  WHERE p` is `List.filter p`, `ORDER BY score DESC` is a merge sort by the
  score, `LIMIT k` is `List.take k`.
* JSON field access `json_extract_string(x, '$.f')` yields SQL NULL when the
  field is absent; such fields are modelled as `Option String`, and the SQL
  three-valued comparison `NULL = v` / `NULL IN (...)` being non-true is
  modelled by the `Option` pattern matches below.
* Embeddings are opaque: a list of rationals, with the cosine-similarity
  operator `array_cosine_similarity` passed in as an abstract function
  `sim : Emb → Emb → ℚ` (the store only compares its results to the 0.3
  threshold and sorts by them).
* Python truthiness tests on strings (`if target_doc`, `if src`, ...) are
  modelled by `optTruthy` (a value that is neither `None` nor `""`).
* Python `str.strip` / `str.split()` / `str.isupper` are modelled on the
  character list of the string (ASCII whitespace, as in the test scenarios).
-/

namespace GraphRag

/-- Embeddings: opaque fixed-width float vectors, modelled as rational lists. -/
abbrev Emb := List Rat

/-- A chunk's JSON metadata: the `source` field (absent = `none`) plus the
remaining key/value pairs, which the core never inspects. -/
structure Metadata where
  source : Option String
  extra : List (String × String) := []
deriving DecidableEq, Repr

/-- A row of the `chunks` table (`_init_schema`): id, space_id, content,
embedding, metadata. -/
structure Chunk where
  id : String
  spaceId : String
  content : String
  embedding : Emb
  meta : Metadata
deriving DecidableEq, Repr

/-- A row of the `nodes` table: id (PRIMARY KEY), label, and the
`source_chunk` property of its JSON `properties` column (`none` when the
property is absent). -/
structure Node where
  id : String
  label : String
  sourceChunk : Option String
deriving DecidableEq, Repr

/-- A row of the `edges` table: source, target, label, and the
`source_chunk` property of its JSON `properties` column. -/
structure Edge where
  source : String
  target : String
  label : String
  sourceChunk : Option String
deriving DecidableEq, Repr

/-- The persistent state of `DuckDBStore`: the three tables. -/
structure Store where
  chunks : List Chunk
  nodes : List Node
  edges : List Edge
deriving DecidableEq, Repr

/-- The store as created by `_init_schema`: three empty tables. -/
def emptyStore : Store := ⟨[], [], []⟩

/-- Python truthiness of an optional string (`None` and `""` are falsy). -/
def optTruthy : Option String → Bool
  | some s => s != ""
  | none => false

/-- The WHERE clause shared by `delete_document` and the filtered
`search_vectors` queries:
`space_id = ? AND json_extract_string(metadata, '$.source') = ?`. -/
def chunkMatches (spaceId title : String) (c : Chunk) : Bool :=
  c.spaceId == spaceId && c.meta.source == some title

/-- SQL `json_extract_string(properties, '$.source_chunk') IN (ids...)`:
NULL (an absent property) is never IN the list. -/
def scMem (ids : List String) (sc : Option String) : Bool :=
  match sc with
  | some s => ids.contains s
  | none => false

/-- Whether any edge of the list references the node id as source or target
(the `id NOT IN (SELECT source FROM edges) AND id NOT IN (SELECT target FROM
edges)` test, negated). -/
def edgeRefs (edges : List Edge) (nodeId : String) : Bool :=
  edges.any (fun e => e.source == nodeId || e.target == nodeId)

/-- `DuckDBStore.add_chunks`: plain INSERT of each row with the given
space_id. -/
def add_chunks (st : Store) (rows : List Chunk) : Store :=
  { st with chunks := st.chunks ++ rows }

/-- `DuckDBStore.add_node`: `INSERT OR IGNORE INTO nodes` — a no-op when a
node with the same id already exists (first writer wins). -/
def add_node (st : Store) (nodeId label : String) (sourceChunk : Option String) : Store :=
  if st.nodes.any (fun n => n.id == nodeId) then st
  else { st with nodes := st.nodes ++ [⟨nodeId, label, sourceChunk⟩] }

/-- `DuckDBStore.add_edge`: unconditional INSERT. -/
def add_edge (st : Store) (src tgt label : String) (sourceChunk : Option String) : Store :=
  { st with edges := st.edges ++ [⟨src, tgt, label, sourceChunk⟩] }

/-- `DuckDBStore.get_graph_context`: all edges whose source or target is in
`nodeIds`, as `(source, target, label)` rows; empty input short-circuits. -/
def get_graph_context (st : Store) (nodeIds : List String) : List (String × String × String) :=
  if nodeIds.isEmpty then []
  else (st.edges.filter (fun e => nodeIds.contains e.source || nodeIds.contains e.target)).map
    (fun e => (e.source, e.target, e.label))

/-- `DuckDBStore.delete_document`: fetch the matching chunks, delete them,
delete the edges whose `source_chunk` property names one of the fetched
chunk ids, then delete the nodes whose `source_chunk` names one of those ids
and that no remaining edge references; returns the number of fetched chunks
paired with the new state. -/
def delete_document (st : Store) (spaceId title : String) : Nat × Store :=
  let matched := st.chunks.filter (chunkMatches spaceId title)
  let chunkIds := matched.map (fun c => c.id)
  let chunks' := st.chunks.filter (fun c => !chunkMatches spaceId title c)
  let edges' := st.edges.filter (fun e => !scMem chunkIds e.sourceChunk)
  let nodes' := st.nodes.filter (fun n => !(scMem chunkIds n.sourceChunk && !edgeRefs edges' n.id))
  (matched.length, { chunks := chunks', nodes := nodes', edges := edges' })

/-- One batch of the graph-cascade in `DuckDBStore.delete_space`: delete the
edges derived from the batch's chunk ids, then the now-orphaned nodes
derived from them. -/
def deleteGraphBatch (st : Store) (batch : List String) : Store :=
  let edges' := st.edges.filter (fun e => !scMem batch e.sourceChunk)
  let nodes' := st.nodes.filter (fun n => !(scMem batch n.sourceChunk && !edgeRefs edges' n.id))
  { st with edges := edges', nodes := nodes' }

/-- `DuckDBStore.delete_space`: 0 immediately when the tenant has no chunks;
otherwise cascade the graph deletion over batches of 1000 chunk ids, then
delete the tenant's chunks, returning the chunk count. -/
def delete_space (st : Store) (spaceId : String) : Nat × Store :=
  let chunkIds := (st.chunks.filter (fun c => c.spaceId == spaceId)).map (fun c => c.id)
  if chunkIds.isEmpty then (0, st)
  else
    let st1 := (chunkIds.toChunks 1000).foldl deleteGraphBatch st
    (chunkIds.length, { st1 with chunks := st1.chunks.filter (fun c => !(c.spaceId == spaceId)) })

/-! ### Python string helpers (`str.strip`, `str.split`, truthiness) -/

/-- Python `str.strip()` on a character list (ASCII whitespace). -/
def trimChars (cs : List Char) : List Char :=
  ((cs.dropWhile Char.isWhitespace).reverse.dropWhile Char.isWhitespace).reverse

/-- Python `str.strip()` on strings. -/
def strTrim (s : String) : String := String.mk (trimChars s.data)

/-- Python `str.strip(".,")`: remove leading and trailing `.` and `,`. -/
def stripPunct (cs : List Char) : List Char :=
  ((cs.dropWhile (fun c => c == '.' || c == ',')).reverse.dropWhile
    (fun c => c == '.' || c == ',')).reverse

/-- Python `str.split()` (no argument): split on whitespace runs, dropping
empty pieces. Accumulator holds the current word reversed. -/
def splitWsAux : List Char → List Char → List (List Char)
  | [], acc => if acc.isEmpty then [] else [acc.reverse]
  | c :: cs, acc =>
    if c.isWhitespace then
      if acc.isEmpty then splitWsAux cs [] else acc.reverse :: splitWsAux cs []
    else splitWsAux cs (c :: acc)

/-- Python `text.split()` on strings. -/
def splitWords (s : String) : List String := (splitWsAux s.data []).map String.mk

/-- The entity heuristic shared by `DocumentIngestor._extract_graph` and
`GraphRAG.retrieve`: words whose first character is uppercase and whose raw
length exceeds 3, with leading/trailing `.`/`,` stripped. -/
def extractEntities (text : String) : List String :=
  ((splitWords text).filter (fun w =>
      (match w.data with
        | [] => false
        | c :: _ => c.isUpper)
      && decide (3 < w.length))).map (fun w => String.mk (stripPunct w.data))

/-- First-occurrence deduplication of a string list. Models both Python's
`dict.fromkeys(xs)` (order-preserving) and, for `_extract_graph`'s
`set(entities)` loop, the set of iterated entities (CPython's set iteration
order is unspecified, but the store state produced by the `add_node` loop is
independent of that order, since all duplicates carry identical fields). -/
def listDedup (xs : List String) : List String :=
  xs.foldl (fun acc x => if acc.contains x then acc else acc ++ [x]) []

/-! ### Ingestion (`DocumentIngestor`) -/

/-- `DocumentIngestor._extract_graph`: add one `Entity` node per distinct
extracted entity and one `RELATED` edge per consecutive entity pair, all
tagged with the originating chunk id. -/
def extract_graph (st : Store) (text chunkId : String) : Store :=
  let entities := extractEntities text
  let st1 := (listDedup entities).foldl (fun s e => add_node s e "Entity" (some chunkId)) st
  (entities.zip entities.tail).foldl
    (fun s p => add_edge s p.1 p.2 "RELATED" (some chunkId)) st1

/-- The deterministic chunk id of `DocumentIngestor.ingest`:
the f-string `"{space_id}_{final_source}_{i}"`. -/
def ingestChunkId (spaceId finalSource : String) (i : Nat) : String :=
  spaceId ++ "_" ++ finalSource ++ "_" ++ Nat.repr i

/-- The chunk id of `DocumentIngestor.ingest_url`: the f-string
`"{space_id}_url_{i}"` — note the literal token `url`, not the URL itself. -/
def urlChunkId (spaceId : String) (i : Nat) : String :=
  spaceId ++ "_url_" ++ Nat.repr i

/-- `DocumentIngestor.ingest` after loading and splitting: the loader and
`RecursiveCharacterTextSplitter` are external collaborators, so the split
chunk texts are taken as input (`contents`), as is the embedding provider
(`embed`). Each chunk gets id `"{space}_{source}_{i}"` and metadata source
`finalSource`; the toy graph is extracted per chunk; the rows are written
through `add_chunks` at the end. -/
def ingest (embed : String → Emb) (st : Store) (contents : List String)
    (spaceId finalSource : String) : Store :=
  let rows := contents.enum.map (fun p =>
    Chunk.mk (ingestChunkId spaceId finalSource p.1) spaceId p.2 (embed p.2)
      ⟨some finalSource, []⟩)
  let stG := contents.enum.foldl
    (fun s p => extract_graph s p.2 (ingestChunkId spaceId finalSource p.1)) st
  add_chunks stG rows

/-- `DocumentIngestor.ingest_url` after loading and splitting: identical to
`ingest` except that the chunk id uses the literal token `url` and the
metadata source is the URL. -/
def ingest_url (embed : String → Emb) (st : Store) (contents : List String)
    (spaceId url : String) : Store :=
  let rows := contents.enum.map (fun p =>
    Chunk.mk (urlChunkId spaceId p.1) spaceId p.2 (embed p.2) ⟨some url, []⟩)
  let stG := contents.enum.foldl
    (fun s p => extract_graph s p.2 (urlChunkId spaceId p.1)) st
  add_chunks stG rows

/-! ### Vector search and keyword fallback (`DuckDBStore.search_vectors`) -/

/-- A row returned by `search_vectors`: `(content, metadata, score)`. -/
structure Row where
  content : String
  meta : Metadata
  score : Rat
deriving DecidableEq, Repr

/-- The similarity threshold of `search_vectors` (0.3). -/
def searchThreshold : Rat := 3 / 10

/-- `ORDER BY score DESC` comparator. -/
def scoreDesc (a b : Row) : Bool := decide (b.score ≤ a.score)

/-- The apostrophe character (for the query sanitizer). -/
def apostChar : Char := Char.ofNat 39

/-- The sanitizer of the keyword fallback:
`text_query.replace(apostrophe, "").replace("%", "")`, i.e. removal of
every apostrophe and every percent sign. -/
def sanitize (s : String) : String :=
  String.mk (s.data.filter (fun c => !(c == apostChar) && !(c == '%')))

/-- SQL `ILIKE` matching on character lists: `%` matches any (possibly
empty) substring, `_` matches exactly one character, every other pattern
character matches case-insensitively. The pattern must cover the whole
text. -/
def likeMatch : List Char → List Char → Bool
  | [], text => text.isEmpty
  | p :: ps, text =>
    if p == '%' then text.tails.any (fun s => likeMatch ps s)
    else
      match text with
      | [] => false
      | c :: cs => (p == '_' || p.toLower == c.toLower) && likeMatch ps cs

/-- `content ILIKE '%{clean_query}%'` for a chunk content. -/
def ilikeContains (clean : String) (content : String) : Bool :=
  likeMatch ('%' :: (clean.data ++ ['%'])) content.data

/-- One vector-path SQL query of `search_vectors` (the two branches differ
only in the document filter): select the tenant's chunks passing the filter
and the 0.3 similarity threshold, order by score descending, limit `k`. -/
def vectorQuery (sim : Emb → Emb → Rat) (q : Emb) (st : Store) (spaceId : String)
    (k : Nat) (docFilter : Chunk → Bool) : List Row :=
  (((st.chunks.filter (fun c => c.spaceId == spaceId && docFilter c
      && decide (searchThreshold < sim c.embedding q))).map
    (fun c => Row.mk c.content c.meta (sim c.embedding q))).mergeSort scoreDesc).take k

/-- One keyword-fallback SQL query of `search_vectors`: tenant- and
document-scoped rows whose content matches `ILIKE '%{clean}%'`, fixed score
0.5, limit `k` (no ordering clause: table order). -/
def keywordQuery (st : Store) (spaceId : String) (k : Nat) (docFilter : Chunk → Bool)
    (clean : String) : List Row :=
  ((st.chunks.filter (fun c => c.spaceId == spaceId && docFilter c
      && ilikeContains clean c.content)).take k).map
    (fun c => Row.mk c.content c.meta (1 / 2 : Rat))

/-- `DuckDBStore.search_vectors`: when the similarity operator works
(`simOk`), the vector path; otherwise (the `except` branch) the keyword
fallback, which returns `[]` when `text_query` is falsy. The document filter
applies when `target_doc` is truthy and not the sentinel `"all"`. -/
def search_vectors (sim : Emb → Emb → Rat) (simOk : Bool) (st : Store)
    (queryEmbedding : Emb) (spaceId : String) (k : Nat)
    (textQuery : Option String) (targetDoc : Option String) : List Row :=
  if simOk then
    if optTruthy targetDoc && targetDoc != some "all" then
      vectorQuery sim queryEmbedding st spaceId k (fun c => c.meta.source == targetDoc)
    else
      vectorQuery sim queryEmbedding st spaceId k (fun _ => true)
  else
    match textQuery with
    | some tq =>
      if tq != "" then
        if optTruthy targetDoc && targetDoc != some "all" then
          keywordQuery st spaceId k (fun c => c.meta.source == targetDoc) (sanitize tq)
        else
          keywordQuery st spaceId k (fun _ => true) (sanitize tq)
      else []
    | none => []

/-! ### Retrieval (`GraphRAG.retrieve`) -/

/-- Python truthiness of the metadata `source` field as used by the citation
deduplication (`src = c.get('source'); if src and ...`). -/
def truthySource (m : Metadata) : Option String :=
  match m.source with
  | some s => if s == "" then none else some s
  | none => none

/-- The citation-deduplication loop of `GraphRAG.retrieve`: keep a metadata
entry when its source is truthy and not yet in `seen`. -/
def dedupCitations : List Metadata → List String → List Metadata
  | [], _ => []
  | m :: rest, seen =>
    match truthySource m with
    | some s =>
      if seen.contains s then dedupCitations rest seen
      else m :: dedupCitations rest (s :: seen)
    | none => dedupCitations rest seen

/-- `list(set(entities_found))[:5]`: at most five distinct entities. CPython
set-iteration order is unspecified; first-seen order is used here, and
`get_graph_context` is insensitive to the order of its node-id argument. -/
def selectEntities (es : List String) : List String := (listDedup es).take 5

/-- Rendering of a graph edge `(source, target, label)` as the sentence
`"{source} is {label} to {target}"`. -/
def graphSentence (t : String × String × String) : String :=
  t.1 ++ " is " ++ t.2.2 ++ " to " ++ t.2.1

/-- Result of the retrieve stage: merged context lines and deduplicated
citations. -/
structure RetrieveResult where
  context : List String
  citations : List Metadata
deriving DecidableEq, Repr

/-- `GraphRAG.retrieve`: reject blank questions; embed the stripped
question (the embedder is the injected collaborator `embed`); vector search
with `k = 5` passing the raw question as fallback text query; collect
contents, extract entities from the retrieved contents and append one
sentence per 1-hop edge; deduplicate citations by truthy source. -/
def retrieve (embed : String → Emb) (sim : Emb → Emb → Rat) (simOk : Bool)
    (st : Store) (question spaceId : String) (targetDoc : Option String) :
    RetrieveResult :=
  if strTrim question == "" then ⟨[], []⟩
  else
    let results := search_vectors sim simOk st (embed (strTrim question)) spaceId 5
      (some question) targetDoc
    let context0 := results.map (fun r => r.content)
    let entitiesFound := results.flatMap (fun r => extractEntities r.content)
    let context1 :=
      if entitiesFound.isEmpty then context0
      else context0 ++ (get_graph_context st (selectEntities entitiesFound)).map graphSentence
    ⟨context1, dedupCitations (results.map (fun r => r.meta)) []⟩

/-- Spec-side first-occurrence citation filter: keep each truthy-source
entry and drop every later entry with the same source. -/
def firstOccur : List Metadata → List Metadata
  | [] => []
  | m :: rest =>
    match truthySource m with
    | some s => m :: firstOccur (rest.filter (fun m2 => truthySource m2 != some s))
    | none => firstOccur rest
termination_by l => l.length
decreasing_by
· exact Nat.lt_succ_of_le (List.length_filter_le _ _)
· simp

/-! ### Generation (`GraphRAG.generate`) -/

/-- Empty-context message, single-document framing. -/
def emptyMsgDoc : String :=
  "I couldn't find any relevant information in this specific document to answer your question. The document may not contain information related to your query."

/-- Empty-context message, all-documents framing. -/
def emptyMsgAll : String :=
  "I couldn't find any relevant information in the uploaded documents to answer your question. Please try rephrasing your question or upload more relevant documents."

/-- Limited-context warning note, single-document framing. -/
def genNoteDoc : String :=
  "\n\n**Note:** I found very limited information in this document related to your question. The answer above may be incomplete or not fully address your query."

/-- Limited-context warning note, all-documents framing. -/
def genNoteAll : String :=
  "\n\n**Note:** I found very limited information related to your question. The answer above may be incomplete. Consider rephrasing your question or uploading more relevant documents."

/-- Tier-3 message when the joined context string is empty. -/
def noContextMsg : String :=
  "I couldn't find any relevant information in the documents."

/-- Tier-3 deterministic context dump: the top 5 unique context lines as a
bullet list plus the fixed no-LLM note. -/
def noLLMDump (uniqueContext : List String) : String :=
  "**Context Found:**\n\n"
    ++ String.intercalate "\n\n" ((uniqueContext.take 5).map (fun l => "- " ++ l))
    ++ "\n\n*(Note: No active LLM found. Showing retrieved context directly.)*"

/-- Environment of `GraphRAG.generate`: which generation tiers are
available and, abstractly, the text fragments each LLM tier would stream
(the remote client and local model runtime are external collaborators).
`remoteOk` / `localOk` model the isolating failure boundaries (any
exception falls through to the next tier); `localLibOk` is the `llama_cpp`
import, `localModelExists` the model-file check. -/
structure GenEnv where
  apiKey : Option String
  remoteOk : Bool
  remoteChunks : List String
  localLibOk : Bool
  localModelExists : Bool
  localOk : Bool
  localChunks : List String

/-- `GraphRAG.generate`, with the produced stream flattened to the full
text the caller would consume: empty context short-circuits to a canned
message; otherwise the context lines are first-occurrence deduplicated and
joined with newlines; a warning note is selected when the trimmed joined
context is shorter than 50 characters; tier 1 (remote, when the API key is
truthy and the call succeeds) and tier 2 (local, when the library imports,
the model file exists and the call succeeds) emit their stream followed by
the warning note; tier 3 emits the deterministic context dump (or the
no-context message), without the warning note. -/
def generate (env : GenEnv) (contextList : List String) (targetDoc : Option String) : String :=
  let isSpecific := optTruthy targetDoc && targetDoc != some "all"
  if contextList.isEmpty then
    if isSpecific then emptyMsgDoc else emptyMsgAll
  else
    let uniqueContext := listDedup contextList
    let contextStr := String.intercalate "\n" uniqueContext
    let warningNote :=
      if (strTrim contextStr).length < 50 then
        if isSpecific then genNoteDoc else genNoteAll
      else ""
    if optTruthy env.apiKey && env.remoteOk then
      String.join env.remoteChunks ++ warningNote
    else if env.localLibOk && env.localModelExists && env.localOk then
      String.join env.localChunks ++ warningNote
    else if contextStr == "" then noContextMsg
    else noLLMDump uniqueContext

/-- Suffix test on strings (for stating "the note is appended"). -/
def strEndsWith (s suffix : String) : Bool := suffix.data.isSuffixOf s.data

/-- Lower-cased character list. -/
def lowerL (cs : List Char) : List Char := cs.map Char.toLower

/-- The spec-side reading of the keyword fallback's match: the sanitized
query is contained, case-insensitively, as a contiguous substring of the
content (some suffix of the content starts with the query, both
lower-cased). -/
def containsCI (needle hay : String) : Bool :=
  (lowerL hay.data).tails.any (fun s => (lowerL needle.data).isPrefixOf s)

/-! ### Concrete scenario instances (used by counterexamples and witnesses) -/

/-- A trivial embedding provider for concrete scenarios. -/
def embed0 : String → Emb := fun _ => []

/-- A trivial similarity operator for concrete scenarios (never consulted on
the keyword-fallback path). -/
def sim0 : Emb → Emb → Rat := fun _ _ => 0

/-- Tenant `t` after `ingest_url` of a first URL whose fetched content split
into the single chunk `"Alice meets Bobby"`. -/
def urlStoreA : Store := ingest_url embed0 emptyStore ["Alice meets Bobby"] "t" "http://a"

/-- `urlStoreA` after `ingest_url` of a second URL with the single chunk
`"Carol visits David"` — both URL ingestions produce the chunk id
`"t_url_0"`. -/
def urlStoreAB : Store := ingest_url embed0 urlStoreA ["Carol visits David"] "t" "http://b"

/-- Two tenants: `alpha` ingested a document mentioning Alice and Bobby;
`beta` ingested a document whose only chunk is `"Alice."`. -/
def twoTenantStore : Store :=
  ingest embed0 (ingest embed0 emptyStore ["Alice meets Bobby"] "alpha" "doc.txt")
    ["Alice."] "beta" "b.txt"

/-- A store with a single chunk of content `"abc"` for tenant `t`. -/
def abcStore : Store := ⟨[⟨"c1", "t", "abc", [], ⟨some "d", []⟩⟩], [], []⟩

/-- A generation environment in which no tier but the deterministic context
dump is available (no API key, no local library/model). -/
def envNone : GenEnv := ⟨none, false, [], false, false, false, []⟩

/-! ### Auxiliary total functions used only to state and prove lemmas -/

/-- Fuel-free decimal digit string of a natural number (most significant
first); used to reason about `Nat.repr`, which computes the same digits
through the fuelled `Nat.toDigitsCore`. -/
def digitsSpec (n : Nat) : List Char :=
  if _h : n < 10 then [Nat.digitChar n]
  else digitsSpec (n / 10) ++ [Nat.digitChar (n % 10)]
termination_by n
decreasing_by exact Nat.div_lt_self (by omega) (by omega)

/-- Whether the citation-deduplication loop would skip `m` given the seen
set: its truthy source is already in `seen`. -/
def seenHas (seen : List String) (m : Metadata) : Bool :=
  match truthySource m with
  | some s => seen.contains s
  | none => false

/-! ### Basic lemmas about the deletion predicates -/

theorem bool_false_iff (b : Bool) : b = false ↔ ¬ b = true := by
  cases b <;> simp

theorem bool_eq_false_of_iff {b : Bool} {P : Prop} (h : b = true ↔ P) : b = false ↔ ¬ P := by
  rw [bool_false_iff, h]

theorem scMem_iff (ids : List String) (sc : Option String) :
    scMem ids sc = true ↔ ∃ s, sc = some s ∧ s ∈ ids := by
  cases sc with
  | none => simp [scMem]
  | some s => simp [scMem]

theorem scMem_matched_iff (st : Store) (spaceId title : String) (sc : Option String) :
    scMem ((st.chunks.filter (chunkMatches spaceId title)).map (fun c => c.id)) sc = true ↔
      ∃ c ∈ st.chunks, chunkMatches spaceId title c = true ∧ sc = some c.id := by
  rw [scMem_iff]
  constructor
  · rintro ⟨s, hsc, hs⟩
    rcases List.mem_map.mp hs with ⟨c, hc, hid⟩
    rcases List.mem_filter.mp hc with ⟨hmem, hmat⟩
    exact ⟨c, hmem, hmat, by rw [hsc, hid]⟩
  · rintro ⟨c, hmem, hmat, hsc⟩
    exact ⟨c.id, hsc, List.mem_map.mpr ⟨c, List.mem_filter.mpr ⟨hmem, hmat⟩, rfl⟩⟩

theorem edgeRefs_false_iff (edges : List Edge) (nodeId : String) :
    edgeRefs edges nodeId = false ↔ ∀ e ∈ edges, e.source ≠ nodeId ∧ e.target ≠ nodeId := by
  rw [edgeRefs, bool_false_iff, List.any_eq_true]
  simp only [not_exists, not_and, Bool.or_eq_true, beq_iff_eq, not_or]

/--
C1: For every store state and every (tenant_id, title), `delete_document`
removes exactly the chunks whose `space_id` equals the tenant and whose
metadata `source` equals the title; removes exactly the edges whose
`source_chunk` property names one of those chunks; removes exactly the nodes
that thereby become orphaned (their `source_chunk` names a removed chunk and
no remaining edge references them as source or target — so a node whose
entity string also occurs in another document survives as long as any
remaining edge references it); returns the number of removed chunks; and
keeps every other chunk, edge and node (in their original order, hence
unchanged). Graph rows are attributed to a document through their
`source_chunk` property, exactly as the claim phrases it.
-/
theorem C1_delete_document_exact (st : Store) (spaceId title : String) :
    (delete_document st spaceId title).1 =
        (st.chunks.filter (chunkMatches spaceId title)).length
    ∧ (delete_document st spaceId title).2.chunks =
        st.chunks.filter (fun c => !chunkMatches spaceId title c)
    ∧ (∀ e : Edge, e ∈ (delete_document st spaceId title).2.edges ↔
        e ∈ st.edges ∧
          ¬ ∃ c ∈ st.chunks, chunkMatches spaceId title c = true ∧ e.sourceChunk = some c.id)
    ∧ (∀ nd : Node, nd ∈ (delete_document st spaceId title).2.nodes ↔
        nd ∈ st.nodes ∧
          ¬ ((∃ c ∈ st.chunks, chunkMatches spaceId title c = true ∧ nd.sourceChunk = some c.id)
            ∧ ∀ e ∈ (delete_document st spaceId title).2.edges,
                e.source ≠ nd.id ∧ e.target ≠ nd.id))
    ∧ (delete_document st spaceId title).2.edges.Sublist st.edges
    ∧ (delete_document st spaceId title).2.nodes.Sublist st.nodes := by
  refine ⟨rfl, rfl, ?_, ?_, List.filter_sublist _, List.filter_sublist _⟩
  · intro e
    simp only [delete_document]
    rw [List.mem_filter]
    apply and_congr_right
    intro _
    rw [show ∀ x : Bool, ((!x) = true ↔ x = false) from by decide]
    exact bool_eq_false_of_iff (scMem_matched_iff st spaceId title e.sourceChunk)
  · intro nd
    simp only [delete_document]
    rw [List.mem_filter]
    apply and_congr_right
    intro _
    rw [show ∀ x y : Bool, ((!(x && !y)) = true ↔ ¬(x = true ∧ y = false)) from by decide]
    exact not_congr
      (and_congr (scMem_matched_iff st spaceId title nd.sourceChunk)
        (edgeRefs_false_iff _ nd.id))

/--
C8: `delete_document` is idempotent — invoking it twice on the same
`(tenant, title)` yields `(N, 0)` for some `N ≥ 0` — and deletion of absent
data is not an error: `delete_document` on an absent document and
`delete_space` on a tenant with no chunks both return a zero count (the
operations are total functions in this embedding, mirroring that the code
raises nothing).
-/
theorem C8_deletion_idempotent (st : Store) (spaceId title : String) :
    (delete_document (delete_document st spaceId title).2 spaceId title).1 = 0
    ∧ ((∀ c ∈ st.chunks, chunkMatches spaceId title c = false) →
        (delete_document st spaceId title).1 = 0)
    ∧ ((∀ c ∈ st.chunks, (c.spaceId == spaceId) = false) →
        delete_space st spaceId = (0, st)) := by
  refine ⟨?_, ?_, ?_⟩
  · simp only [delete_document, List.filter_filter]
    rw [List.filter_congr (q := fun _ => false) ?_]
    · simp
    · intro c _
      cases chunkMatches spaceId title c <;> simp
  · intro h
    simp only [delete_document]
    rw [List.filter_congr (q := fun _ => false) ?_]
    · simp
    · intro c hc
      simp [h c hc]
  · intro h
    simp only [delete_space]
    rw [List.filter_congr (q := fun _ => false) ?_]
    · simp
    · intro c hc
      simp [h c hc]

/-- Witness for C8 at a concrete input: the empty store. -/
theorem C8_deletion_idempotent_witness :
    (∀ c ∈ emptyStore.chunks, chunkMatches "s" "a.txt" c = false)
    ∧ (delete_document emptyStore "s" "a.txt").1 = 0
    ∧ delete_space emptyStore "s" = (0, emptyStore) :=
  ⟨by simp [emptyStore],
    (C8_deletion_idempotent emptyStore "s" "a.txt").2.1 (by simp [emptyStore]),
    (C8_deletion_idempotent emptyStore "s" "a.txt").2.2 (by simp [emptyStore])⟩

/-! ### The orphan invariant (C2) -/

/--
C2 (counterexample): the claim quantifies over every sequence of ingestions
and deletions, but two `ingest_url` calls into tenant `t` give both
documents' chunks the same id `t_url_0`. Deleting the first document
(`http://a`) then also deletes the `Carol → David` edge derived from the
still-present document `http://b` and, with it, the `Carol` node — although
that node was referenced by an edge derived from a chunk of a different,
still-present document, so the claim requires it to persist.
-/
theorem C2_counterexample :
    (⟨"Carol", "Entity", some "t_url_0"⟩ : Node) ∈ urlStoreAB.nodes
    ∧ (⟨"Carol", "David", "RELATED", some "t_url_0"⟩ : Edge) ∈ urlStoreAB.edges
    ∧ (⟨"t_url_0", "t", "Carol visits David", [], ⟨some "http://b", []⟩⟩ : Chunk)
        ∈ urlStoreAB.chunks
    ∧ chunkMatches "t" "http://a"
        ⟨"t_url_0", "t", "Carol visits David", [], ⟨some "http://b", []⟩⟩ = false
    ∧ (⟨"t_url_0", "t", "Carol visits David", [], ⟨some "http://b", []⟩⟩ : Chunk)
        ∈ (delete_document urlStoreAB "t" "http://a").2.chunks
    ∧ (⟨"Carol", "Entity", some "t_url_0"⟩ : Node)
        ∉ (delete_document urlStoreAB "t" "http://a").2.nodes := by
  decide

/--
C2 (amended): provided no two chunk rows of the store share an id (true for
`ingest` under distinct source names, violated by repeated `ingest_url`),
the orphan invariant holds after `delete_document`: (a) no node whose
`source_chunk` names a chunk of the deleted document and that no remaining
edge references as source or target stays in the node table; (b) every node
referenced as source or target by an edge derived from a chunk of a
different (hence still-present) document stays.
-/
theorem C2_amended_orphan_invariant (st : Store) (spaceId title : String)
    (hids : (st.chunks.map (fun c => c.id)).Nodup) :
    (∀ nd ∈ st.nodes,
        (∃ c ∈ st.chunks, chunkMatches spaceId title c = true ∧ nd.sourceChunk = some c.id) →
        (∀ e ∈ (delete_document st spaceId title).2.edges,
            e.source ≠ nd.id ∧ e.target ≠ nd.id) →
        nd ∉ (delete_document st spaceId title).2.nodes)
    ∧ (∀ nd ∈ st.nodes, ∀ e ∈ st.edges, ∀ c ∈ st.chunks,
        chunkMatches spaceId title c = false →
        e.sourceChunk = some c.id →
        (e.source = nd.id ∨ e.target = nd.id) →
        nd ∈ (delete_document st spaceId title).2.nodes) := by
  constructor
  · intro nd _ hsc href hmem
    simp only [delete_document] at href hmem
    rw [List.mem_filter] at hmem
    obtain ⟨-, hkeep⟩ := hmem
    rw [(scMem_matched_iff st spaceId title nd.sourceChunk).mpr hsc,
      (edgeRefs_false_iff _ nd.id).mpr href] at hkeep
    simp at hkeep
  · intro nd hnd e he c hc hcm hesc href
    have hpair : st.chunks.Pairwise (fun a b => a.id ≠ b.id) :=
      List.pairwise_map.mp hids
    have hnotin : scMem ((st.chunks.filter (chunkMatches spaceId title)).map
        (fun c => c.id)) e.sourceChunk = false := by
      rw [bool_false_iff, scMem_matched_iff]
      rintro ⟨c', hc', hmat', hid'⟩
      rw [hesc] at hid'
      have hcc : c ≠ c' := by
        intro hcc
        rw [hcc, hmat'] at hcm
        exact Bool.noConfusion hcm
      have : c.id ≠ c'.id :=
        hpair.forall (fun a b hab => (hab ∘ Eq.symm : b.id ≠ a.id)) hc hc' hcc
      exact this (Option.some.inj hid'.symm).symm
    simp only [delete_document]
    rw [List.mem_filter]
    refine ⟨hnd, ?_⟩
    have hin : edgeRefs (st.edges.filter (fun e => !scMem
        ((st.chunks.filter (chunkMatches spaceId title)).map (fun c => c.id))
        e.sourceChunk)) nd.id = true := by
      rw [edgeRefs, List.any_eq_true]
      refine ⟨e, List.mem_filter.mpr ⟨he, by rw [hnotin]; rfl⟩, ?_⟩
      rcases href with h | h <;> simp [h]
    rw [hin]
    simp

/-- Witness for C2 (amended) at a concrete store whose chunk ids are unique. -/
theorem C2_amended_orphan_invariant_witness :
    (twoTenantStore.chunks.map (fun c => c.id)).Nodup
    ∧ ((∀ nd ∈ twoTenantStore.nodes,
        (∃ c ∈ twoTenantStore.chunks,
            chunkMatches "alpha" "doc.txt" c = true ∧ nd.sourceChunk = some c.id) →
        (∀ e ∈ (delete_document twoTenantStore "alpha" "doc.txt").2.edges,
            e.source ≠ nd.id ∧ e.target ≠ nd.id) →
        nd ∉ (delete_document twoTenantStore "alpha" "doc.txt").2.nodes)
    ∧ (∀ nd ∈ twoTenantStore.nodes, ∀ e ∈ twoTenantStore.edges,
        ∀ c ∈ twoTenantStore.chunks,
        chunkMatches "alpha" "doc.txt" c = false →
        e.sourceChunk = some c.id →
        (e.source = nd.id ∨ e.target = nd.id) →
        nd ∈ (delete_document twoTenantStore "alpha" "doc.txt").2.nodes)) :=
  ⟨by decide, C2_amended_orphan_invariant twoTenantStore "alpha" "doc.txt" (by decide)⟩

/-! ### Chunk-id uniqueness (C9) -/

theorem toDigitsCore_eq :
    ∀ (n fuel : Nat) (ds : List Char), n < fuel →
      Nat.toDigitsCore 10 fuel n ds = digitsSpec n ++ ds := by
  intro n
  induction n using Nat.strong_induction_on with
  | _ n ih =>
    intro fuel ds hfuel
    match fuel, hfuel with
    | fuel + 1, hfuel =>
      by_cases h10 : n < 10
      · have hdiv : n / 10 = 0 := Nat.div_eq_of_lt h10
        rw [digitsSpec]
        simp [Nat.toDigitsCore, hdiv, h10, Nat.mod_eq_of_lt h10]
      · have hdiv : ¬ n / 10 = 0 := by omega
        rw [digitsSpec]
        simp only [Nat.toDigitsCore, hdiv, if_false, dif_neg h10]
        rw [ih (n / 10) (by omega) fuel _ (by omega)]
        simp

theorem digitsSpec_lt (n : Nat) (h : n < 10) : digitsSpec n = [Nat.digitChar n] := by
  rw [digitsSpec, dif_pos h]

theorem digitsSpec_ge (n : Nat) (h : ¬ n < 10) :
    digitsSpec n = digitsSpec (n / 10) ++ [Nat.digitChar (n % 10)] := by
  rw [digitsSpec, dif_neg h]

theorem digitsSpec_ne_nil (n : Nat) : digitsSpec n ≠ [] := by
  rw [digitsSpec]
  split <;> simp

theorem digitChar_injOn :
    ∀ m, m < 10 → ∀ n, n < 10 → Nat.digitChar m = Nat.digitChar n → m = n := by
  decide

theorem digitsSpec_inj : ∀ m n : Nat, digitsSpec m = digitsSpec n → m = n := by
  intro m
  induction m using Nat.strong_induction_on with
  | _ m ih =>
    intro n h
    by_cases hm : m < 10 <;> by_cases hn : n < 10
    · rw [digitsSpec_lt m hm, digitsSpec_lt n hn] at h
      exact digitChar_injOn m hm n hn (by injection h)
    · rw [digitsSpec_lt m hm, digitsSpec_ge n hn] at h
      rcases hds : digitsSpec (n / 10) with _ | ⟨d, ds⟩
      · exact absurd hds (digitsSpec_ne_nil _)
      · rw [hds] at h
        have hlen := congrArg List.length h
        simp only [List.length_append, List.length_cons, List.length_nil] at hlen
        omega
    · rw [digitsSpec_ge m hm, digitsSpec_lt n hn] at h
      rcases hds : digitsSpec (m / 10) with _ | ⟨d, ds⟩
      · exact absurd hds (digitsSpec_ne_nil _)
      · rw [hds] at h
        have hlen := congrArg List.length h
        simp only [List.length_append, List.length_cons, List.length_nil] at hlen
        omega
    · rw [digitsSpec_ge m hm, digitsSpec_ge n hn] at h
      obtain ⟨h1, h2⟩ := List.append_inj' h (by simp)
      have e1 : m / 10 = n / 10 :=
        ih (m / 10) (Nat.div_lt_self (by omega) (by omega)) (n / 10) h1
      have e2 : m % 10 = n % 10 :=
        digitChar_injOn _ (Nat.mod_lt _ (by omega)) _ (Nat.mod_lt _ (by omega))
          (by injection h2)
      omega

theorem natRepr_injective : ∀ m n : Nat, Nat.repr m = Nat.repr n → m = n := by
  intro m n h
  rw [Nat.repr, Nat.repr, List.asString_inj, Nat.toDigits, Nat.toDigits,
    toDigitsCore_eq m (m + 1) [] (Nat.lt_succ_self m),
    toDigitsCore_eq n (n + 1) [] (Nat.lt_succ_self n)] at h
  simp at h
  exact digitsSpec_inj m n h

theorem string_data_inj {s t : String} (h : s.data = t.data) : s = t := by
  cases s
  cases t
  exact congrArg String.mk h

theorem ingestChunkId_inj (spaceId finalSource : String) :
    Function.Injective (ingestChunkId spaceId finalSource) := by
  intro i j h
  have h' := congrArg String.data h
  simp only [ingestChunkId, String.data_append] at h'
  exact natRepr_injective i j (string_data_inj (List.append_cancel_left h'))

theorem urlChunkId_inj (spaceId : String) : Function.Injective (urlChunkId spaceId) := by
  intro i j h
  have h' := congrArg String.data h
  simp only [urlChunkId, String.data_append] at h'
  exact natRepr_injective i j (string_data_inj (List.append_cancel_left h'))

theorem add_node_chunks (st : Store) (a b : String) (sc : Option String) :
    (add_node st a b sc).chunks = st.chunks := by
  unfold add_node
  split <;> rfl

theorem foldl_chunks_invariant {β : Type} (f : Store → β → Store)
    (hf : ∀ s b, (f s b).chunks = s.chunks) :
    ∀ (l : List β) (st : Store), (l.foldl f st).chunks = st.chunks := by
  intro l
  induction l with
  | nil => intro st; rfl
  | cons b bs ih => intro st; rw [List.foldl_cons, ih, hf]

theorem extract_graph_chunks (st : Store) (text cid : String) :
    (extract_graph st text cid).chunks = st.chunks := by
  simp only [extract_graph]
  rw [foldl_chunks_invariant
        (fun s (p : String × String) => add_edge s p.1 p.2 "RELATED" (some cid))
        (fun s p => rfl),
    foldl_chunks_invariant (fun s e => add_node s e "Entity" (some cid))
      (fun s e => add_node_chunks s e "Entity" (some cid))]

theorem map_enum_fst_nodup {α : Type} (contents : List α) (g : Nat → String)
    (hg : Function.Injective g) : (contents.enum.map (fun p => g p.1)).Nodup := by
  have hmm : contents.enum.map (fun p => g p.1) = (contents.enum.map Prod.fst).map g := by
    rw [List.map_map]
    rfl
  rw [hmm, List.enum_map_fst]
  exact (List.nodup_range _).map hg

/--
C9 (counterexample): two `ingest_url` calls into the same tenant both
produce the chunk id `t_url_0` (the id uses the literal token `url`, not the
source), so chunk ids are not unique within the tenant even though the two
chunks belong to different documents.
-/
theorem C9_counterexample :
    urlStoreAB.chunks.map (fun c => c.id) = ["t_url_0", "t_url_0"]
    ∧ urlStoreAB.chunks.map (fun c => c.meta.source)
        = [some "http://a", some "http://b"]
    ∧ ¬ (urlStoreAB.chunks.map (fun c => c.id)).Nodup := by
  decide

/--
C9 (amended): within a single call the produced chunk ids are unique —
`ingest` appends chunks with the pairwise-distinct ids
`"{tenant}_{source}_{i}"`, `ingest_url` with the pairwise-distinct ids
`"{tenant}_url_{i}"` — but uniqueness across calls into the same tenant is
not guaranteed: `ingest_url` uses the literal token `url` in place of the
source, so distinct URLs (or repeated ingestions of one source) collide.
-/
theorem C9_amended_chunk_ids (embed : String → Emb) (st : Store)
    (contents : List String) (spaceId finalSource url : String) :
    (ingest embed st contents spaceId finalSource).chunks
      = st.chunks ++ contents.enum.map (fun p =>
          Chunk.mk (ingestChunkId spaceId finalSource p.1) spaceId p.2 (embed p.2)
            ⟨some finalSource, []⟩)
    ∧ (contents.enum.map (fun p => ingestChunkId spaceId finalSource p.1)).Nodup
    ∧ (ingest_url embed st contents spaceId url).chunks
      = st.chunks ++ contents.enum.map (fun p =>
          Chunk.mk (urlChunkId spaceId p.1) spaceId p.2 (embed p.2) ⟨some url, []⟩)
    ∧ (contents.enum.map (fun p => urlChunkId spaceId p.1)).Nodup := by
  refine ⟨?_, map_enum_fst_nodup contents _ (ingestChunkId_inj spaceId finalSource),
    ?_, map_enum_fst_nodup contents _ (urlChunkId_inj spaceId)⟩
  · have hG := foldl_chunks_invariant
      (fun s p => extract_graph s p.2 (ingestChunkId spaceId finalSource p.1))
      (fun s p => extract_graph_chunks s p.2 _) contents.enum st
    simp only [ingest, add_chunks]
    rw [hG]
  · have hG := foldl_chunks_invariant
      (fun s p => extract_graph s p.2 (urlChunkId spaceId p.1))
      (fun s p => extract_graph_chunks s p.2 _) contents.enum st
    simp only [ingest_url, add_chunks]
    rw [hG]

/-! ### Vector search (C3) -/

theorem scoreDesc_trans :
    ∀ a b c : Row, scoreDesc a b = true → scoreDesc b c = true → scoreDesc a c = true := by
  intro a b c hab hbc
  simp only [scoreDesc, decide_eq_true_eq] at hab hbc ⊢
  exact le_trans hbc hab

theorem scoreDesc_total : ∀ a b : Row, (scoreDesc a b || scoreDesc b a) = true := by
  intro a b
  simp only [scoreDesc, Bool.or_eq_true, decide_eq_true_eq]
  exact le_total b.score a.score

/-- Behaviour of `ORDER BY score DESC LIMIT k` on any row list: the result
is a prefix of a score-descending permutation of the rows, of length
`min k (number of rows)`, and every dropped row scores no higher than every
returned row. -/
theorem takeSort_spec (l : List Row) (k : Nat) :
    ∃ rest : List Row,
      l.Perm ((l.mergeSort scoreDesc).take k ++ rest)
      ∧ ((l.mergeSort scoreDesc).take k).length = min k l.length
      ∧ ((l.mergeSort scoreDesc).take k).Pairwise (fun a b => b.score ≤ a.score)
      ∧ ∀ a ∈ (l.mergeSort scoreDesc).take k, ∀ b ∈ rest, b.score ≤ a.score := by
  have hperm := List.mergeSort_perm l scoreDesc
  have hs : (l.mergeSort scoreDesc).Pairwise (fun a b : Row => b.score ≤ a.score) :=
    (List.sorted_mergeSort scoreDesc_trans scoreDesc_total l).imp
      (fun hab => by simpa [scoreDesc, decide_eq_true_eq] using hab)
  refine ⟨(l.mergeSort scoreDesc).drop k, ?_, ?_, ?_, ?_⟩
  · rw [List.take_append_drop]
    exact hperm.symm
  · rw [List.length_take, hperm.length_eq]
  · exact hs.sublist (List.take_sublist k _)
  · intro a ha b hb
    have hsplit : List.Pairwise (fun a b : Row => b.score ≤ a.score)
        (List.take k (l.mergeSort scoreDesc) ++ List.drop k (l.mergeSort scoreDesc)) := by
      rw [List.take_append_drop]
      exact hs
    exact (List.pairwise_append.mp hsplit).2.2 a ha b hb

/-- `vectorQuery` instantiates `takeSort_spec` on the qualifying rows. -/
theorem vectorQuery_spec (sim : Emb → Emb → Rat) (q : Emb) (st : Store)
    (spaceId : String) (k : Nat) (docFilter : Chunk → Bool) :
    ∃ rest : List Row,
      ((st.chunks.filter (fun c => c.spaceId == spaceId && docFilter c
          && decide (searchThreshold < sim c.embedding q))).map
        (fun c => Row.mk c.content c.meta (sim c.embedding q))).Perm
        (vectorQuery sim q st spaceId k docFilter ++ rest)
      ∧ (vectorQuery sim q st spaceId k docFilter).length
          = min k ((st.chunks.filter (fun c => c.spaceId == spaceId && docFilter c
              && decide (searchThreshold < sim c.embedding q))).map
            (fun c => Row.mk c.content c.meta (sim c.embedding q))).length
      ∧ (vectorQuery sim q st spaceId k docFilter).Pairwise
          (fun a b => b.score ≤ a.score)
      ∧ ∀ a ∈ vectorQuery sim q st spaceId k docFilter, ∀ b ∈ rest,
          b.score ≤ a.score :=
  takeSort_spec _ k

/--
C3: when the similarity operator is available, `search_vectors` returns
exactly the chunks of the tenant — further restricted to the chunks whose
metadata `source` equals `target_doc` when `target_doc` is set (truthy) and
is not the sentinel `"all"`, and unrestricted otherwise — whose similarity
with the query vector exceeds the threshold 0.3, as `(content, metadata,
score)` rows, limited to the top `k` ordered descending by score: the
qualifying rows are a permutation of the result followed by the dropped
rows, the result has length `min k (number of qualifying rows)`, is sorted
descending by score, and every dropped qualifying row scores no higher than
every returned row (SQL leaves the order of equal scores unspecified; the
embedding fixes a merge sort).
-/
theorem C3_search_vectors_topk (sim : Emb → Emb → Rat) (st : Store) (q : Emb)
    (spaceId : String) (k : Nat) (textQuery targetDoc : Option String) :
    ∃ rest : List Row,
      ((st.chunks.filter (fun c => c.spaceId == spaceId
          && (if optTruthy targetDoc && targetDoc != some "all"
              then c.meta.source == targetDoc else true)
          && decide (searchThreshold < sim c.embedding q))).map
        (fun c => Row.mk c.content c.meta (sim c.embedding q))).Perm
        (search_vectors sim true st q spaceId k textQuery targetDoc ++ rest)
      ∧ (search_vectors sim true st q spaceId k textQuery targetDoc).length
          = min k ((st.chunks.filter (fun c => c.spaceId == spaceId
              && (if optTruthy targetDoc && targetDoc != some "all"
                  then c.meta.source == targetDoc else true)
              && decide (searchThreshold < sim c.embedding q))).map
            (fun c => Row.mk c.content c.meta (sim c.embedding q))).length
      ∧ (search_vectors sim true st q spaceId k textQuery targetDoc).Pairwise
          (fun a b => b.score ≤ a.score)
      ∧ ∀ a ∈ search_vectors sim true st q spaceId k textQuery targetDoc,
          ∀ b ∈ rest, b.score ≤ a.score := by
  by_cases h : (optTruthy targetDoc && targetDoc != some "all") = true
  · simp only [search_vectors, h, eq_self_iff_true, if_true]
    exact vectorQuery_spec sim q st spaceId k (fun c => c.meta.source == targetDoc)
  · have hF : (optTruthy targetDoc && targetDoc != some "all") = false :=
      (bool_false_iff _).mpr h
    simp only [search_vectors, hF, Bool.false_eq_true, if_false, eq_self_iff_true, if_true]
    exact vectorQuery_spec sim q st spaceId k (fun _ => true)

/-! ### Tenant partitioning (C4) -/

/-- The chunk table after `delete_space`: unchanged when the tenant holds no
chunks, otherwise filtered to the other tenants' chunks (the graph batches
never touch the chunk table). -/
theorem delete_space_snd_chunks (st : Store) (spaceId : String) :
    (delete_space st spaceId).2.chunks =
      if ((st.chunks.filter (fun c => c.spaceId == spaceId)).map
          (fun c => c.id)).isEmpty
      then st.chunks
      else st.chunks.filter (fun c => !(c.spaceId == spaceId)) := by
  simp only [delete_space]
  by_cases hcond : ((st.chunks.filter (fun c => c.spaceId == spaceId)).map
      (fun c => c.id)).isEmpty = true
  · rw [if_pos hcond, if_pos hcond]
  · rw [if_neg hcond, if_neg hcond,
      foldl_chunks_invariant deleteGraphBatch (fun s b => rfl)]

/--
C4 (counterexample): nodes and edges carry no tenancy key (`_init_schema`
gives the `nodes`/`edges` tables no `space_id` column), so graph data is
not partitioned between tenants. Concretely: the only edge of
`twoTenantStore` was created by tenant `alpha`'s ingestion (its
`source_chunk` is `alpha`'s chunk), yet a retrieval invoked with tenant
`beta`'s key returns the context sentence rendered from that edge —
tenant `beta` reads tenant `alpha`'s graph data.
-/
theorem C4_counterexample :
    ("alpha" : String) ≠ "beta"
    ∧ twoTenantStore.edges
        = [⟨"Alice", "Bobby", "RELATED", some "alpha_doc.txt_0"⟩]
    ∧ (∀ c ∈ twoTenantStore.chunks, c.id = "alpha_doc.txt_0" → c.spaceId = "alpha")
    ∧ "Alice is RELATED to Bobby"
        ∈ (retrieve embed0 sim0 false twoTenantStore "Alice" "beta" none).context := by
  decide

/--
C4 (amended): only the chunk table is partitioned by the tenancy key:
`search_vectors` returns only rows originating from chunks of the given
tenant (on both the vector path and the keyword fallback), and
`delete_document` / `delete_space` invoked with one tenant's key keep every
chunk of every other tenant. Nodes and edges are global (see the
counterexample), so the claim's partition holds for chunks only.
-/
theorem C4_amended_chunk_partition (sim : Emb → Emb → Rat) (simOk : Bool)
    (st : Store) (q : Emb) (spaceId : String) (k : Nat)
    (textQuery targetDoc : Option String) (title : String) :
    (∀ r ∈ search_vectors sim simOk st q spaceId k textQuery targetDoc,
        ∃ c ∈ st.chunks, c.spaceId = spaceId ∧ r.content = c.content ∧ r.meta = c.meta)
    ∧ (∀ c ∈ st.chunks, c.spaceId ≠ spaceId →
        c ∈ (delete_document st spaceId title).2.chunks
        ∧ c ∈ (delete_space st spaceId).2.chunks) := by
  constructor
  · intro r hr
    have main : ∀ (docFilter : Chunk → Bool) (c : Chunk),
        c ∈ st.chunks.filter (fun c => c.spaceId == spaceId && docFilter c
          && decide (searchThreshold < sim c.embedding q)) →
        c ∈ st.chunks ∧ c.spaceId = spaceId := by
      intro docFilter c hc
      rw [List.mem_filter] at hc
      obtain ⟨hmem, hcond⟩ := hc
      simp only [Bool.and_eq_true, beq_iff_eq] at hcond
      exact ⟨hmem, hcond.1.1⟩
    have mainK : ∀ (docFilter : Chunk → Bool) (c : Chunk) (clean : String),
        c ∈ st.chunks.filter (fun c => c.spaceId == spaceId && docFilter c
          && ilikeContains clean c.content) →
        c ∈ st.chunks ∧ c.spaceId = spaceId := by
      intro docFilter c clean hc
      rw [List.mem_filter] at hc
      obtain ⟨hmem, hcond⟩ := hc
      simp only [Bool.and_eq_true, beq_iff_eq] at hcond
      exact ⟨hmem, hcond.1.1⟩
    revert hr
    unfold search_vectors
    split
    · -- vector path: r is a member of the take of the mergeSort of the mapped filter
      have hvec : ∀ (docFilter : Chunk → Bool),
          r ∈ vectorQuery sim q st spaceId k docFilter →
          ∃ c ∈ st.chunks, c.spaceId = spaceId ∧ r.content = c.content ∧ r.meta = c.meta := by
        intro docFilter hr
        unfold vectorQuery at hr
        have hr2 := (List.mergeSort_perm _ scoreDesc).mem_iff.mp
          ((List.take_sublist _ _).mem hr)
        rw [List.mem_map] at hr2
        obtain ⟨c, hc, hrc⟩ := hr2
        obtain ⟨hmem, hsp⟩ := main docFilter c hc
        exact ⟨c, hmem, hsp, by rw [← hrc], by rw [← hrc]⟩
      split
      · exact hvec _
      · exact hvec _
    · -- keyword fallback
      split
      · split
        · split
          · intro hr
            unfold keywordQuery at hr
            rw [List.mem_map] at hr
            obtain ⟨c, hc, hrc⟩ := hr
            obtain ⟨hmem, hsp⟩ := mainK _ c _ ((List.take_sublist _ _).mem hc)
            exact ⟨c, hmem, hsp, by rw [← hrc], by rw [← hrc]⟩
          · intro hr
            unfold keywordQuery at hr
            rw [List.mem_map] at hr
            obtain ⟨c, hc, hrc⟩ := hr
            obtain ⟨hmem, hsp⟩ := mainK _ c _ ((List.take_sublist _ _).mem hc)
            exact ⟨c, hmem, hsp, by rw [← hrc], by rw [← hrc]⟩
        · intro hr
          exact absurd hr (List.not_mem_nil r)
      · intro hr
        exact absurd hr (List.not_mem_nil r)
  · intro c hc hne
    constructor
    · simp only [delete_document]
      rw [List.mem_filter]
      refine ⟨hc, ?_⟩
      have : chunkMatches spaceId title c = false := by
        unfold chunkMatches
        have : (c.spaceId == spaceId) = false := by
          rw [bool_false_iff]
          simpa using hne
        rw [this]
        rfl
      rw [this]
      rfl
    · have hsp : (c.spaceId == spaceId) = false := by
        rw [bool_false_iff]
        simpa using hne
      rw [delete_space_snd_chunks]
      split
      · exact hc
      · rw [List.mem_filter]
        exact ⟨hc, by rw [hsp]; rfl⟩

/-! ### Warning note on short context (C5) -/

/--
C5 (counterexample): with no LLM tier available and the deduplicated,
joined context `"Hi"` (non-empty, 2 < 50 characters after trimming), the
tier that produces output is the deterministic context dump — and its
output carries no warning note (neither framing), contradicting the claim
that every output-producing tier has the note appended.
-/
theorem C5_counterexample :
    0 < (strTrim (String.intercalate "\n" (listDedup ["Hi"]))).length
    ∧ (strTrim (String.intercalate "\n" (listDedup ["Hi"]))).length < 50
    ∧ generate envNone ["Hi"] none = noLLMDump (listDedup ["Hi"])
    ∧ strEndsWith (generate envNone ["Hi"] none) genNoteAll = false
    ∧ strEndsWith (generate envNone ["Hi"] none) genNoteDoc = false := by
  decide

/--
C5 (amended): when the deduplicated, joined context is non-empty but
shorter than 50 characters after trimming, the remote and the local tier
append the warning note (worded by the single-document vs all-documents
framing of `target_doc`) to their streamed output, but the deterministic
context dump does not include the note.
-/
theorem C5_amended_warning_note (env : GenEnv) (contextList : List String)
    (targetDoc : Option String) (hne : contextList ≠ [])
    (hpos : 0 < (strTrim (String.intercalate "\n" (listDedup contextList))).length)
    (hlt : (strTrim (String.intercalate "\n" (listDedup contextList))).length < 50) :
    ((optTruthy env.apiKey && env.remoteOk) = true →
        generate env contextList targetDoc
          = String.join env.remoteChunks
            ++ (if optTruthy targetDoc && targetDoc != some "all"
                then genNoteDoc else genNoteAll))
    ∧ ((optTruthy env.apiKey && env.remoteOk) = false →
        (env.localLibOk && env.localModelExists && env.localOk) = true →
        generate env contextList targetDoc
          = String.join env.localChunks
            ++ (if optTruthy targetDoc && targetDoc != some "all"
                then genNoteDoc else genNoteAll))
    ∧ ((optTruthy env.apiKey && env.remoteOk) = false →
        (env.localLibOk && env.localModelExists && env.localOk) = false →
        generate env contextList targetDoc = noLLMDump (listDedup contextList))
    ∧ genNoteDoc ≠ genNoteAll
    ∧ (if optTruthy targetDoc && targetDoc != some "all"
        then genNoteDoc else genNoteAll) ≠ "" := by
  have hempty : contextList.isEmpty = false := by
    cases contextList with
    | nil => exact absurd rfl hne
    | cons a l => rfl
  have hcs : (String.intercalate "\n" (listDedup contextList) == "") = false := by
    rw [bool_false_iff, beq_iff_eq]
    intro hz
    rw [hz] at hpos
    exact absurd hpos (by decide)
  refine ⟨?_, ?_, ?_, by decide, ?_⟩
  · intro h1
    simp only [generate, hempty, Bool.false_eq_true, if_false, if_pos hlt, h1,
      eq_self_iff_true, if_true]
  · intro h1 h2
    simp only [generate, hempty, Bool.false_eq_true, if_false, if_pos hlt, h1, h2,
      eq_self_iff_true, if_true]
  · intro h1 h2
    simp only [generate, hempty, Bool.false_eq_true, if_false, if_pos hlt, h1, h2,
      hcs, eq_self_iff_true, if_true]
  · split
    · decide
    · decide

/-- Witness for C5 (amended) at a concrete short non-empty context. -/
theorem C5_amended_warning_note_witness :
    ((["Hi"] : List String) ≠ []
      ∧ 0 < (strTrim (String.intercalate "\n" (listDedup ["Hi"]))).length
      ∧ (strTrim (String.intercalate "\n" (listDedup ["Hi"]))).length < 50)
    ∧ (((optTruthy envNone.apiKey && envNone.remoteOk) = true →
        generate envNone ["Hi"] none
          = String.join envNone.remoteChunks
            ++ (if optTruthy (none : Option String) && (none : Option String) != some "all"
                then genNoteDoc else genNoteAll))
    ∧ ((optTruthy envNone.apiKey && envNone.remoteOk) = false →
        (envNone.localLibOk && envNone.localModelExists && envNone.localOk) = true →
        generate envNone ["Hi"] none
          = String.join envNone.localChunks
            ++ (if optTruthy (none : Option String) && (none : Option String) != some "all"
                then genNoteDoc else genNoteAll))
    ∧ ((optTruthy envNone.apiKey && envNone.remoteOk) = false →
        (envNone.localLibOk && envNone.localModelExists && envNone.localOk) = false →
        generate envNone ["Hi"] none = noLLMDump (listDedup ["Hi"]))
    ∧ genNoteDoc ≠ genNoteAll
    ∧ (if optTruthy (none : Option String) && (none : Option String) != some "all"
        then genNoteDoc else genNoteAll) ≠ "") :=
  ⟨⟨by decide, by decide, by decide⟩,
    C5_amended_warning_note envNone ["Hi"] none (by decide) (by decide) (by decide)⟩

/-! ### Keyword fallback (C6) -/

theorem likeMatch_percent (ps t : List Char) :
    likeMatch ('%' :: ps) t = t.tails.any (fun s => likeMatch ps s) := by
  simp [likeMatch]

theorem likeMatch_plain (q : List Char) (hq : ∀ c ∈ q, c ≠ '%' ∧ c ≠ '_') :
    ∀ s : List Char, likeMatch (q ++ ['%']) s = (lowerL q).isPrefixOf (lowerL s) := by
  induction q with
  | nil =>
    intro s
    rw [show (([] : List Char) ++ ['%']) = '%' :: [] from rfl, likeMatch_percent]
    simp only [lowerL, List.map_nil, List.isPrefixOf_nil_left]
    exact List.any_eq_true.mpr ⟨[], (List.mem_tails _ _).mpr List.nil_suffix, rfl⟩
  | cons c q' ih =>
    intro s
    have hc := hq c (List.mem_cons_self c q')
    have hq' : ∀ d ∈ q', d ≠ '%' ∧ d ≠ '_' := fun d hd => hq d (List.mem_cons_of_mem c hd)
    have h1 : (c == '%') = false := by
      rw [bool_false_iff, beq_iff_eq]
      exact hc.1
    have h2 : (c == '_') = false := by
      rw [bool_false_iff, beq_iff_eq]
      exact hc.2
    rw [List.cons_append]
    cases s with
    | nil =>
      simp [likeMatch, h1, lowerL]
    | cons d s' =>
      simp only [likeMatch, h1, Bool.false_eq_true, if_false, h2, Bool.false_or,
        ih hq' s']
      simp only [lowerL, List.map_cons, List.isPrefixOf_cons₂]

theorem tails_map {α β : Type} (f : α → β) :
    ∀ l : List α, (l.map f).tails = l.tails.map (List.map f) := by
  intro l
  induction l with
  | nil => rfl
  | cons a l ih =>
    rw [List.map_cons, List.tails_cons, List.tails_cons, List.map_cons, ih, List.map_cons]

theorem ilike_eq_containsCI (clean content : String)
    (hq : ∀ c ∈ clean.data, c ≠ '%' ∧ c ≠ '_') :
    ilikeContains clean content = containsCI clean content := by
  unfold ilikeContains containsCI
  rw [likeMatch_percent,
    show (fun s => likeMatch (clean.data ++ ['%']) s)
      = (fun s => (lowerL clean.data).isPrefixOf (lowerL s))
      from funext (likeMatch_plain clean.data hq)]
  unfold lowerL
  rw [tails_map, List.any_map]
  rfl

theorem sanitize_clean (tq : String) :
    ∀ c ∈ (sanitize tq).data, c ≠ apostChar ∧ c ≠ '%' := by
  intro c hcmem
  have hcmem' : c ∈ tq.data.filter (fun c => !(c == apostChar) && !(c == '%')) := hcmem
  have hcond := (List.mem_filter.mp hcmem').2
  simp only [Bool.and_eq_true, Bool.not_eq_true', beq_eq_false_iff_ne] at hcond
  exact hcond

/--
C6 (counterexample): with the similarity operator unavailable and text
query `"a_c"` (sanitization leaves it unchanged), the keyword fallback
returns the chunk with content `"abc"` — because the underscore left in the
`ILIKE` pattern matches any single character — although `"abc"` does not
contain `"a_c"` as a substring, contradicting the claim that exactly the
chunks containing the sanitized query as a (case-insensitive) substring
are returned.
-/
theorem C6_counterexample :
    (search_vectors sim0 false abcStore [] "t" 5 (some "a_c") none).map
        (fun r => r.content) = ["abc"]
    ∧ sanitize "a_c" = "a_c"
    ∧ containsCI "a_c" "abc" = false := by
  decide

/--
C6 (amended): when the similarity path raises, `search_vectors` falls back
to matching the sanitized text query (apostrophes and percent signs
stripped — only those two characters) with SQL `ILIKE`, where an underscore
in the query matches any single character; for sanitized queries containing
no underscore this is exactly case-insensitive substring containment over
the same tenant/document scope, with fixed placeholder score 0.5 and limit
`k`. The failure is not reported: the fallback is a total function of the
same return type (an empty text query yields `[]`).
-/
theorem C6_amended_keyword_fallback (sim : Emb → Emb → Rat) (st : Store)
    (q : Emb) (spaceId : String) (k : Nat) (tq : String)
    (targetDoc : Option String) (hne : tq ≠ "")
    (hus : ∀ c ∈ (sanitize tq).data, c ≠ '_') :
    search_vectors sim false st q spaceId k (some tq) targetDoc
      = ((st.chunks.filter (fun c => c.spaceId == spaceId
          && (if optTruthy targetDoc && targetDoc != some "all"
              then c.meta.source == targetDoc else true)
          && containsCI (sanitize tq) c.content)).take k).map
        (fun c => Row.mk c.content c.meta (1 / 2 : Rat)) := by
  have hclean : ∀ c ∈ (sanitize tq).data, c ≠ '%' ∧ c ≠ '_' :=
    fun c hc => ⟨(sanitize_clean tq c hc).2, hus c hc⟩
  have hm : ∀ content, ilikeContains (sanitize tq) content
      = containsCI (sanitize tq) content :=
    fun content => ilike_eq_containsCI _ content hclean
  have htq : (tq != "") = true := bne_iff_ne.mpr hne
  by_cases h : (optTruthy targetDoc && targetDoc != some "all") = true
  · simp only [search_vectors, Bool.false_eq_true, if_false, htq, h,
      eq_self_iff_true, if_true]
    unfold keywordQuery
    congr 1
    congr 1
    apply List.filter_congr
    intro c _
    rw [hm c.content]
  · have hF : (optTruthy targetDoc && targetDoc != some "all") = false :=
      (bool_false_iff _).mpr h
    simp only [search_vectors, Bool.false_eq_true, if_false, htq, hF,
      eq_self_iff_true, if_true]
    unfold keywordQuery
    congr 1
    congr 1
    apply List.filter_congr
    intro c _
    rw [hm c.content]

/-- Witness for C6 (amended): a concrete underscore-free query. -/
theorem C6_amended_keyword_fallback_witness :
    (("abc" : String) ≠ "" ∧ ∀ c ∈ (sanitize "abc").data, c ≠ '_')
    ∧ search_vectors sim0 false abcStore [] "t" 5 (some "abc") none
      = ((abcStore.chunks.filter (fun c => c.spaceId == "t"
          && (if optTruthy (none : Option String)
                && (none : Option String) != some "all"
              then c.meta.source == (none : Option String) else true)
          && containsCI (sanitize "abc") c.content)).take 5).map
        (fun c => Row.mk c.content c.meta (1 / 2 : Rat)) :=
  ⟨⟨by decide, by decide⟩,
    C6_amended_keyword_fallback sim0 abcStore [] "t" 5 "abc" none (by decide) (by decide)⟩

/-! ### Citation deduplication (C7, C10) -/

theorem seenHas_nil (m : Metadata) : seenHas [] m = false := by
  unfold seenHas
  cases truthySource m <;> rfl

theorem filter_seenHas_nil (ms : List Metadata) :
    ms.filter (fun m => !(seenHas [] m)) = ms := by
  rw [List.filter_congr (q := fun _ => true) (fun m _ => by rw [seenHas_nil m]; rfl)]
  exact List.filter_true ms

/-- The code's accumulator dedup loop equals the spec-side first-occurrence
filter, applied to the entries whose truthy source is not yet seen. -/
theorem dedupCitations_eq (ms : List Metadata) :
    ∀ seen, dedupCitations ms seen = firstOccur (ms.filter (fun m => !(seenHas seen m))) := by
  induction ms with
  | nil => intro seen; simp [dedupCitations, firstOccur]
  | cons m rest ih =>
    intro seen
    cases hts : truthySource m with
    | none =>
      have hsh : (!(seenHas seen m)) = true := by
        simp only [seenHas, hts, Bool.not_false]
      simp only [dedupCitations, hts, List.filter_cons, hsh, eq_self_iff_true, if_true]
      simp only [firstOccur, hts]
      exact ih seen
    | some s =>
      by_cases hseen : seen.contains s = true
      · have hsh : (!(seenHas seen m)) = false := by
          simp only [seenHas, hts, hseen, Bool.not_true]
        simp only [dedupCitations, hts, hseen, if_true, List.filter_cons, hsh,
          Bool.false_eq_true, if_false, eq_self_iff_true]
        exact ih seen
      · have hsF : seen.contains s = false := (bool_false_iff _).mpr hseen
        have hsh : (!(seenHas seen m)) = true := by
          simp only [seenHas, hts, hsF, Bool.not_false]
        simp only [dedupCitations, hts, hsF, Bool.false_eq_true, if_false,
          List.filter_cons, hsh, eq_self_iff_true, if_true]
        simp only [firstOccur, hts]
        rw [ih (s :: seen), List.filter_filter]
        congr 1
        congr 1
        apply List.filter_congr
        intro m2 _
        cases h2 : truthySource m2 with
        | none => simp [seenHas, h2]
        | some u =>
          simp only [seenHas, h2, List.contains_cons, Bool.not_or, bne]
          by_cases hus : u = s
          · subst hus
            simp
          · have h3 : (u == s) = false := by
              rw [bool_false_iff, beq_iff_eq]
              exact hus
            have h4 : (some u == some s) = false := by
              rw [bool_false_iff, beq_iff_eq]
              simp [hus]
            rw [h3, h4]

theorem firstOccur_sublist : ∀ ms : List Metadata, (firstOccur ms).Sublist ms
  | [] => by simp [firstOccur]
  | m :: rest => by
    cases hts : truthySource m with
    | some s =>
      simp only [firstOccur, hts]
      exact List.Sublist.cons₂ m
        ((firstOccur_sublist _).trans (List.filter_sublist rest))
    | none =>
      simp only [firstOccur, hts]
      exact (firstOccur_sublist rest).cons m
termination_by ms => ms.length
decreasing_by
all_goals
  first
  | exact Nat.lt_succ_of_le (List.length_filter_le _ _)
  | simp

theorem firstOccur_truthy : ∀ ms : List Metadata, ∀ m ∈ firstOccur ms, truthySource m ≠ none
  | [] => by simp [firstOccur]
  | m0 :: rest => by
    intro m hm
    cases hts : truthySource m0 with
    | some s =>
      simp only [firstOccur, hts] at hm
      rcases List.mem_cons.mp hm with h | h
      · rw [h, hts]
        exact fun hc => Option.noConfusion hc
      · exact firstOccur_truthy _ m h
    | none =>
      simp only [firstOccur, hts] at hm
      exact firstOccur_truthy rest m hm
termination_by ms => ms.length
decreasing_by
all_goals
  first
  | exact Nat.lt_succ_of_le (List.length_filter_le _ _)
  | simp

theorem firstOccur_pairwise :
    ∀ ms : List Metadata,
      (firstOccur ms).Pairwise (fun a b => truthySource a ≠ truthySource b)
  | [] => by simp [firstOccur]
  | m :: rest => by
    cases hts : truthySource m with
    | some s =>
      simp only [firstOccur, hts]
      refine List.Pairwise.cons ?_ (firstOccur_pairwise _)
      intro b hb
      have hbmem := (firstOccur_sublist _).subset hb
      have hbne := (List.mem_filter.mp hbmem).2
      rw [bne_iff_ne] at hbne
      rw [hts]
      exact fun hcon => hbne hcon.symm
    | none =>
      simp only [firstOccur, hts]
      exact firstOccur_pairwise rest
termination_by ms => ms.length
decreasing_by
all_goals
  first
  | exact Nat.lt_succ_of_le (List.length_filter_le _ _)
  | simp

theorem truthySource_eq_some {m : Metadata} {s : String}
    (h : truthySource m = some s) : m.source = some s := by
  cases hm : m.source with
  | none =>
    simp only [truthySource, hm] at h
    exact h
  | some u =>
    simp only [truthySource, hm] at h
    by_cases hu : (u == "") = true
    · rw [if_pos hu] at h
      exact Option.noConfusion h
    · rw [if_neg hu] at h
      exact h

/--
C7: for every retrieval call (with a non-blank question), the returned
citation list is exactly the spec-side first-occurrence filter of the
retrieved chunks' metadata (keep the first entry per truthy source, drop
every later entry with the same source), so it contains no two entries with
the same `source` field value and is a sublist of the retrieved metadata
sequence — the entries appear in first-occurrence order.
-/
theorem C7_citation_dedup (embed : String → Emb) (sim : Emb → Emb → Rat)
    (simOk : Bool) (st : Store) (question spaceId : String)
    (targetDoc : Option String) (h : strTrim question ≠ "") :
    (retrieve embed sim simOk st question spaceId targetDoc).citations
      = firstOccur ((search_vectors sim simOk st (embed (strTrim question)) spaceId 5
          (some question) targetDoc).map (fun r => r.meta))
    ∧ (retrieve embed sim simOk st question spaceId targetDoc).citations.Pairwise
        (fun m1 m2 => m1.source ≠ m2.source)
    ∧ (retrieve embed sim simOk st question spaceId targetDoc).citations.Sublist
        ((search_vectors sim simOk st (embed (strTrim question)) spaceId 5
          (some question) targetDoc).map (fun r => r.meta)) := by
  have hq : (strTrim question == "") = false := by
    rw [bool_false_iff, beq_iff_eq]
    exact h
  have hcit : (retrieve embed sim simOk st question spaceId targetDoc).citations
      = dedupCitations ((search_vectors sim simOk st (embed (strTrim question)) spaceId 5
          (some question) targetDoc).map (fun r => r.meta)) [] := by
    simp only [retrieve, hq, Bool.false_eq_true, if_false]
  rw [hcit, dedupCitations_eq _ [], filter_seenHas_nil]
  refine ⟨rfl, ?_, firstOccur_sublist _⟩
  refine (firstOccur_pairwise _).imp_of_mem ?_
  intro a b ha hb hab
  have hta := firstOccur_truthy _ a ha
  have htb := firstOccur_truthy _ b hb
  cases ca : truthySource a with
  | none => exact absurd ca hta
  | some sa =>
    cases cb : truthySource b with
    | none => exact absurd cb htb
    | some sb =>
      rw [truthySource_eq_some ca, truthySource_eq_some cb]
      intro hcon
      apply hab
      rw [ca, cb, Option.some.inj hcon]

theorem dedupCitations_truthy :
    ∀ (ms : List Metadata) (seen : List String),
      ∀ m ∈ dedupCitations ms seen, truthySource m ≠ none := by
  intro ms
  induction ms with
  | nil => intro seen m hm; simp [dedupCitations] at hm
  | cons m0 rest ih =>
    intro seen m hm
    cases hts : truthySource m0 with
    | some s =>
      simp only [dedupCitations, hts] at hm
      by_cases hseen : seen.contains s = true
      · rw [if_pos hseen] at hm
        exact ih seen m hm
      · rw [if_neg hseen] at hm
        rcases List.mem_cons.mp hm with h | h
        · rw [h, hts]
          exact fun hc => Option.noConfusion hc
        · exact ih _ m h
    | none =>
      simp only [dedupCitations, hts] at hm
      exact ih seen m hm

/--
C10: a retrieved chunk always contributes its content to the returned
context list, but when its metadata `source` is absent or empty (falsy) the
metadata entry never appears in the returned citation list: every citation
has a truthy source.
-/
theorem C10_sourceless_chunk (embed : String → Emb) (sim : Emb → Emb → Rat)
    (simOk : Bool) (st : Store) (question spaceId : String)
    (targetDoc : Option String) (h : strTrim question ≠ "") :
    ∀ r ∈ search_vectors sim simOk st (embed (strTrim question)) spaceId 5
        (some question) targetDoc,
      r.content ∈ (retrieve embed sim simOk st question spaceId targetDoc).context
      ∧ (truthySource r.meta = none →
          r.meta ∉ (retrieve embed sim simOk st question spaceId targetDoc).citations) := by
  have hq : (strTrim question == "") = false := by
    rw [bool_false_iff, beq_iff_eq]
    exact h
  intro r hr
  constructor
  · simp only [retrieve, hq, Bool.false_eq_true, if_false]
    split
    · exact List.mem_map_of_mem _ hr
    · exact List.mem_append_left _ (List.mem_map_of_mem _ hr)
  · intro hnone hmem
    simp only [retrieve, hq, Bool.false_eq_true, if_false] at hmem
    exact dedupCitations_truthy _ [] r.meta hmem hnone

/-! ### Witnesses at concrete inputs for the remaining claim theorems -/

/-- Witness for C1 at a concrete store. -/
theorem C1_delete_document_exact_witness :
    (delete_document abcStore "t" "d").1
        = (abcStore.chunks.filter (chunkMatches "t" "d")).length
    ∧ (delete_document abcStore "t" "d").2.chunks
        = abcStore.chunks.filter (fun c => !chunkMatches "t" "d" c)
    ∧ (∀ e : Edge, e ∈ (delete_document abcStore "t" "d").2.edges ↔
        e ∈ abcStore.edges ∧
          ¬ ∃ c ∈ abcStore.chunks, chunkMatches "t" "d" c = true ∧ e.sourceChunk = some c.id)
    ∧ (∀ nd : Node, nd ∈ (delete_document abcStore "t" "d").2.nodes ↔
        nd ∈ abcStore.nodes ∧
          ¬ ((∃ c ∈ abcStore.chunks, chunkMatches "t" "d" c = true ∧ nd.sourceChunk = some c.id)
            ∧ ∀ e ∈ (delete_document abcStore "t" "d").2.edges,
                e.source ≠ nd.id ∧ e.target ≠ nd.id))
    ∧ (delete_document abcStore "t" "d").2.edges.Sublist abcStore.edges
    ∧ (delete_document abcStore "t" "d").2.nodes.Sublist abcStore.nodes :=
  C1_delete_document_exact abcStore "t" "d"

/-- Witness for C3 at a concrete store and query. -/
theorem C3_search_vectors_topk_witness :
    ∃ rest : List Row,
      ((abcStore.chunks.filter (fun c => c.spaceId == "t"
          && (if optTruthy (none : Option String) && (none : Option String) != some "all"
              then c.meta.source == (none : Option String) else true)
          && decide (searchThreshold < sim0 c.embedding []))).map
        (fun c => Row.mk c.content c.meta (sim0 c.embedding []))).Perm
        (search_vectors sim0 true abcStore [] "t" 5 none none ++ rest)
      ∧ (search_vectors sim0 true abcStore [] "t" 5 none none).length
          = min 5 ((abcStore.chunks.filter (fun c => c.spaceId == "t"
              && (if optTruthy (none : Option String) && (none : Option String) != some "all"
                  then c.meta.source == (none : Option String) else true)
              && decide (searchThreshold < sim0 c.embedding []))).map
            (fun c => Row.mk c.content c.meta (sim0 c.embedding []))).length
      ∧ (search_vectors sim0 true abcStore [] "t" 5 none none).Pairwise
          (fun a b => b.score ≤ a.score)
      ∧ ∀ a ∈ search_vectors sim0 true abcStore [] "t" 5 none none,
          ∀ b ∈ rest, b.score ≤ a.score :=
  C3_search_vectors_topk sim0 abcStore [] "t" 5 none none

/-- Witness for C4 (amended) at a concrete store. -/
theorem C4_amended_chunk_partition_witness :
    (∀ r ∈ search_vectors sim0 false abcStore [] "t" 5 none none,
        ∃ c ∈ abcStore.chunks, c.spaceId = "t" ∧ r.content = c.content ∧ r.meta = c.meta)
    ∧ (∀ c ∈ abcStore.chunks, c.spaceId ≠ "t" →
        c ∈ (delete_document abcStore "t" "d").2.chunks
        ∧ c ∈ (delete_space abcStore "t").2.chunks) :=
  C4_amended_chunk_partition sim0 false abcStore [] "t" 5 none none "d"

/-- Witness for C7 at a concrete retrieval. -/
theorem C7_citation_dedup_witness :
    strTrim "Alice" ≠ ""
    ∧ ((retrieve embed0 sim0 false abcStore "Alice" "t" none).citations
      = firstOccur ((search_vectors sim0 false abcStore (embed0 (strTrim "Alice")) "t" 5
          (some "Alice") none).map (fun r => r.meta))
    ∧ (retrieve embed0 sim0 false abcStore "Alice" "t" none).citations.Pairwise
        (fun m1 m2 => m1.source ≠ m2.source)
    ∧ (retrieve embed0 sim0 false abcStore "Alice" "t" none).citations.Sublist
        ((search_vectors sim0 false abcStore (embed0 (strTrim "Alice")) "t" 5
          (some "Alice") none).map (fun r => r.meta))) :=
  ⟨by decide, C7_citation_dedup embed0 sim0 false abcStore "Alice" "t" none (by decide)⟩

/-- Witness for C9 (amended) at a concrete ingestion. -/
theorem C9_amended_chunk_ids_witness :
    (ingest embed0 emptyStore ["Alice meets Bobby"] "t" "a.txt").chunks
      = emptyStore.chunks ++ (["Alice meets Bobby"] : List String).enum.map (fun p =>
          Chunk.mk (ingestChunkId "t" "a.txt" p.1) "t" p.2 (embed0 p.2)
            ⟨some "a.txt", []⟩)
    ∧ ((["Alice meets Bobby"] : List String).enum.map
        (fun p => ingestChunkId "t" "a.txt" p.1)).Nodup
    ∧ (ingest_url embed0 emptyStore ["Alice meets Bobby"] "t" "http://a").chunks
      = emptyStore.chunks ++ (["Alice meets Bobby"] : List String).enum.map (fun p =>
          Chunk.mk (urlChunkId "t" p.1) "t" p.2 (embed0 p.2) ⟨some "http://a", []⟩)
    ∧ ((["Alice meets Bobby"] : List String).enum.map (fun p => urlChunkId "t" p.1)).Nodup :=
  C9_amended_chunk_ids embed0 emptyStore ["Alice meets Bobby"] "t" "a.txt" "http://a"

/-- Witness for C10 at a concrete retrieval. -/
theorem C10_sourceless_chunk_witness :
    strTrim "Alice" ≠ ""
    ∧ ∀ r ∈ search_vectors sim0 false abcStore (embed0 (strTrim "Alice")) "t" 5
        (some "Alice") none,
      r.content ∈ (retrieve embed0 sim0 false abcStore "Alice" "t" none).context
      ∧ (truthySource r.meta = none →
          r.meta ∉ (retrieve embed0 sim0 false abcStore "Alice" "t" none).citations) :=
  ⟨by decide, C10_sourceless_chunk embed0 sim0 false abcStore "Alice" "t" none (by decide)⟩

end GraphRag
